import Mathlib

/-!
Verification development for the family_album photo application.

The frontend upload/validation logic (hooks `usePhotoUpload`, `usePhotoDetail`,
`useAdminRestore`, `usePhotoList`, service `pictureService`) is embedded from the
TypeScript source.  The FastAPI backend sources are not part of the repository
snapshot, so backend behaviour (ingestion atomicity, access-control guard,
lifecycle transitions, resize, listing) is modelled from the specification, as
noted on each such definition.
-/

namespace FamilyAlbum

/-- Embedding of the browser `File` values handled by the upload hook:
a file has a name, a claimed MIME type (`file.type`, possibly empty) and a
byte size. -/
structure UploadFile where
  name : String
  type : String
  size : Nat
deriving DecidableEq, Repr

/-- Source constant `MAX_FILES = 5` from the multi-file upload hook. -/
def MAX_FILES : Nat := 5

/-- Source constant `MAX_FILE_SIZE = 50 * 1024 * 1024` (50MB). -/
def MAX_FILE_SIZE : Nat := 50 * 1024 * 1024

/-- Source constant `ALLOWED_TYPES` from the upload hook. -/
def ALLOWED_TYPES : List String :=
  ["image/jpeg", "image/png", "image/gif", "image/webp", "image/heic", "image/heif"]

/-- JavaScript `String.prototype.split(".")`: split a character list at every
dot, keeping empty segments, always returning at least one segment. -/
def splitOnDot : List Char → List (List Char)
  | [] => [[]]
  | c :: cs =>
    let rest := splitOnDot cs
    if c = '.' then [] :: rest
    else
      match rest with
      | r :: rs => (c :: r) :: rs
      | [] => [[c]]

/-- Embedding of `file.name.toLowerCase().split(".").pop()` from `isHEICFile`. -/
def fileExt (name : String) : String :=
  String.mk ((splitOnDot (name.toList.map Char.toLower)).getLastD [])

/-- Embedding of `isHEICFile`: the lower-cased final dot-separated segment of
the filename is `heic` or `heif`. -/
def isHEICFile (file : UploadFile) : Bool :=
  let ext := fileExt file.name
  ext == "heic" || ext == "heif"

/-- Embedding of `isAllowedFile`: any file whose name has a HEIC/HEIF extension
is accepted outright; otherwise the claimed MIME type must be in
`ALLOWED_TYPES`. -/
def isAllowedFile (file : UploadFile) : Bool :=
  if isHEICFile file then true
  else ALLOWED_TYPES.contains file.type

/-- Type-check predicate following the specification's words (for comparison
with the source's `isAllowedFile`): the claimed MIME must be in the allowed
list, or — as the sole relaxation — the claimed MIME is empty/generic while
the filename extension is `.heic`/`.heif`. -/
def specAllowedFile (file : UploadFile) : Bool :=
  ALLOWED_TYPES.contains file.type ||
    ((file.type == "" || file.type == "application/octet-stream") && isHEICFile file)

/-- Validation errors surfaced by the upload hook (each corresponds to an
`alert` + early return in `handleFileChange` / `handleSubmit`). -/
inductive UploadError where
  | tooMany
  | tooLarge (name : String)
  | badType (name : String)
deriving DecidableEq, Repr

/-- Embedding of the per-file loop in `handleFileChange`: the first file that
is oversized or of a disallowed type aborts the whole selection. -/
def checkFiles : List UploadFile → Option UploadError
  | [] => none
  | f :: fs =>
    if f.size > MAX_FILE_SIZE then some (.tooLarge f.name)
    else if !isAllowedFile f then some (.badType f.name)
    else checkFiles fs

/-- Embedding of `handleFileChange` (multi-file upload hook): given the files
already selected and the newly chosen ones, either reject the event (selection
unchanged, an alert shown) or append the new files.  An empty event is a
no-op.  The count check runs before any per-file check. -/
def handleFileChange (selectedFiles newFiles : List UploadFile) :
    Except UploadError (List UploadFile) :=
  if newFiles.length = 0 then .ok selectedFiles
  else if selectedFiles.length + newFiles.length > MAX_FILES then .error .tooMany
  else
    match checkFiles newFiles with
    | some e => .error e
    | none => .ok (selectedFiles ++ newFiles)

/-- Embedding of the guard at the top of `handleSubmit`: the request is issued
only when at least one file is selected and a category is chosen (an empty
category string is falsy in the source). -/
def handleSubmitAccepts (selectedFiles : List UploadFile) (selectedCategory : String) : Bool :=
  !(selectedFiles.length == 0 || selectedCategory == "")

/-- Picture lifecycle status from the data model: Active, Deleted (soft),
Purged (terminal). -/
inductive PicStatus where
  | active
  | deleted
  | purged
deriving DecidableEq, Repr

/-- Picture metadata row, following the `PictureResponse` shape of the
frontend types (fields not needed by any claim are omitted; `createDate` is
an abstract comparable timestamp). -/
structure PictureRow where
  id : Nat
  familyId : Nat
  uploadedBy : Nat
  groupId : Nat
  title : Option String
  description : Option String
  categoryId : Option Nat
  status : PicStatus
  createDate : Nat
deriving DecidableEq, Repr

/-- Error taxonomy of the API, from the specification's error-handling
design. -/
inductive ApiError where
  | validation
  | processing
  | storage
  | unauthenticated
  | forbidden
  | notFound
  | invalidStateTransition
deriving DecidableEq, Repr

/-- Update the status of every row carrying the given id (the single-row
transactional update of the lifecycle manager). -/
def setStatus (table : List PictureRow) (pid : Nat) (s : PicStatus) : List PictureRow :=
  table.map (fun q => if q.id = pid then { q with status := s } else q)

/-- Modelled from the spec: the backend `PATCH /pictures/:id/restore` operation
(absent from the repository snapshot).  Restore is allowed only from
`Deleted` and returns the picture to `Active`; any other current status fails
with `InvalidStateTransition` and leaves the table unchanged. -/
def restorePicture (table : List PictureRow) (pid : Nat) :
    Except ApiError Unit × List PictureRow :=
  match table.find? (fun q => q.id == pid) with
  | none => (.error .notFound, table)
  | some p =>
    if p.status = .deleted then (.ok (), setStatus table pid .active)
    else (.error .invalidStateTransition, table)

/-- Modelled from the spec: the backend `DELETE /pictures/:id` soft delete
(absent from the repository snapshot).  Allowed only from `Active`. -/
def softDeletePicture (table : List PictureRow) (pid : Nat) :
    Except ApiError Unit × List PictureRow :=
  match table.find? (fun q => q.id == pid) with
  | none => (.error .notFound, table)
  | some p =>
    if p.status = .active then (.ok (), setStatus table pid .deleted)
    else (.error .invalidStateTransition, table)

/-- Modelled from the spec: the backend purge operation (absent from the
repository snapshot).  Allowed only from `Deleted`; marks the row `Purged`
(its bytes are unlinked). -/
def purgePicture (table : List PictureRow) (pid : Nat) :
    Except ApiError Unit × List PictureRow :=
  match table.find? (fun q => q.id == pid) with
  | none => (.error .notFound, table)
  | some p =>
    if p.status = .deleted then (.ok (), setStatus table pid .purged)
    else (.error .invalidStateTransition, table)

/-- JavaScript `s || null` on a string: the empty string is falsy and becomes
`null`. -/
def jsStringOrNull (s : String) : Option String :=
  if s = "" then none else some s

/-- Modelled from the spec: the backend `PATCH /pictures/:id` metadata update
(absent from the repository snapshot) sets the title/description of the single
addressed picture row. -/
def updatePicture (table : List PictureRow) (pid : Nat)
    (t d : Option String) : List PictureRow :=
  table.map (fun q => if q.id = pid then { q with title := t, description := d } else q)

/-- Embedding of `handleUpdatePhoto` from the photo-detail hook: loop over the
loaded group's photos, issuing one metadata update per member, all with the
same `editingTitle || null` / `editingDescription || null` payload. -/
def handleUpdatePhoto (table : List PictureRow) (photos : List PictureRow)
    (editingTitle editingDescription : String) : List PictureRow :=
  photos.foldl
    (fun tbl p =>
      updatePicture tbl p.id (jsStringOrNull editingTitle) (jsStringOrNull editingDescription))
    table

/-- Group detail view: the rows sharing the given group id, as served by
`GetGroupDetail`. -/
def getGroupDetail (table : List PictureRow) (g : Nat) : List PictureRow :=
  table.filter (fun q => q.groupId == g)

/-- Embedding of `handleDeletePhoto` from the photo-detail hook: one
`deletePicture` call per loaded photo, in sequence, aborting at the first call
that throws.  Each list element pairs the photo with whether its call
succeeds; a successful call soft-deletes that photo's row (modelled from the
spec, the backend being absent), a failed call has no effect and stops the
loop. -/
def deleteLoop (table : List PictureRow) :
    List (PictureRow × Bool) → Bool × List PictureRow
  | [] => (true, table)
  | (p, ok) :: ps =>
    if ok then deleteLoop (setStatus table p.id .deleted) ps
    else (false, table)

/-- User role from the data model. -/
inductive Role where
  | general
  | admin
deriving DecidableEq, Repr

/-- Kind of operation submitted to the guard: family-wide read-list
operations versus mutations of a specific resource. -/
inductive GuardAction where
  | readList
  | mutate
deriving DecidableEq, Repr

/-- Authenticated identity handed to the guard. -/
structure Identity where
  userId : Nat
  familyId : Nat
  role : Role
  active : Bool
deriving DecidableEq, Repr

/-- Family/owner descriptor of the target resource. -/
structure ResourceDesc where
  familyId : Nat
  ownerId : Nat
deriving DecidableEq, Repr

/-- Guard decision. -/
inductive Decision where
  | allow
  | denyUnauthenticated
  | denyNotFound
  | denyForbidden
deriving DecidableEq, Repr

/-- Modelled from the spec: the access-control guard (the backend sources are
absent from the repository snapshot; its test guide asserts 404 on
cross-family access and 403 on same-family privilege violations).  Rules in
order: inactive/unauthenticated first, then the cross-family check (denied as
NotFound for every role), then the role/ownership check (denied as
Forbidden). -/
def authorize (i : Identity) (a : GuardAction) (r : ResourceDesc) : Decision :=
  if i.active = false then .denyUnauthenticated
  else if r.familyId ≠ i.familyId then .denyNotFound
  else
    match a, i.role with
    | .readList, _ => .allow
    | .mutate, .admin => .allow
    | .mutate, .general =>
      if r.ownerId = i.userId then .allow else .denyForbidden

/-- Resize bound on the longest edge, from the upload guidelines (長辺2048px). -/
def RESIZE_LIMIT : Nat := 2048

/-- Scale one edge by `RESIZE_LIMIT / longest`, rounding half up. -/
def scaleEdge (edge longest : Nat) : Nat :=
  (edge * RESIZE_LIMIT + longest / 2) / longest

/-- Modelled from the spec: server-side auto-resize (the backend sources are
absent from the repository snapshot).  If the longest edge exceeds 2048 px,
downscale preserving aspect ratio so the longest edge equals 2048 px;
otherwise keep the dimensions unchanged. -/
def resizeDims (w h : Nat) : Nat × Nat :=
  if max w h ≤ RESIZE_LIMIT then (w, h)
  else (scaleEdge w (max w h), scaleEdge h (max w h))

/-- Listing order: `create_date` descending, ties broken by `id` descending
(`p` comes no later than `q`). -/
def picOrder (p q : PictureRow) : Prop :=
  q.createDate < p.createDate ∨ (q.createDate = p.createDate ∧ q.id ≤ p.id)

instance : DecidableRel picOrder := fun p q => by
  unfold picOrder; infer_instance

instance : IsTotal PictureRow picOrder :=
  ⟨fun p q => by unfold picOrder; omega⟩

instance : IsTrans PictureRow picOrder :=
  ⟨fun p q r hpq hqr => by unfold picOrder at *; omega⟩

/-- Result shape of `GET /pictures`, from the frontend `PictureListResponse`
type. -/
structure ListResult where
  pictures : List PictureRow
  total : Nat
  limit : Nat
  offset : Nat
  has_more : Bool
deriving Repr

/-- Modelled from the spec: the backend listing query (absent from the
repository snapshot).  Individual pictures matching the filter are ordered by
`create_date` descending with ties broken by `id` descending; the page is the
`limit`-sized slice at `offset`; `total` counts the individual matching
pictures; `has_more = offset + limit < total`.  The filter itself is
abstracted as a predicate. -/
def listPictures (table : List PictureRow) (matchesF : PictureRow → Bool)
    (limit offset : Nat) : ListResult :=
  let sorted := List.insertionSort picOrder (table.filter matchesF)
  { pictures := (sorted.drop offset).take limit
    total := (table.filter matchesF).length
    limit := limit
    offset := offset
    has_more := decide (offset + limit < (table.filter matchesF).length) }

/-- Durable observable state of the ingestion collaborators: the blob store
(path ↦ content) and the Picture table. -/
structure DurableState where
  blobs : List (String × Nat)
  rows : List PictureRow
deriving DecidableEq, Repr

/-- Abstraction of one input file of a batch for the ingestion pipeline:
whether it decodes (including orientation parsing), whether each of its two
durable writes succeeds, the storage paths/bytes it would occupy, and the
metadata row it would create. -/
structure InFile where
  decodes : Bool
  origWriteOk : Bool
  thumbWriteOk : Bool
  origPath : String
  thumbPath : String
  origBytes : Nat
  thumbBytes : Nat
  meta : PictureRow
deriving DecidableEq, Repr

/-- Errors of the ingestion pipeline proper. -/
inductive IngestError where
  | processing
  | storage
deriving DecidableEq, Repr

/-- Compensating cleanup: remove from the blob store every path written by
the failed batch. -/
def deletePaths (blobs : List (String × Nat)) (ps : List String) :
    List (String × Nat) :=
  blobs.filter (fun b => !(ps.contains b.1))

/-- Modelled from the spec: per-file stage of the ingestion pipeline (the
backend sources are absent from the repository snapshot).  Files are processed
sequentially: decode/orientation, then the original's durable write, then the
thumbnail's.  On success it returns the blob store and the pending metadata
rows; on failure it returns the error together with the blob store as left by
the partial batch and the list of paths the batch has written so far. -/
def processFiles (blobs : List (String × Nat)) (pend : List PictureRow)
    (written : List String) :
    List InFile →
      Except (IngestError × List (String × Nat) × List String)
        (List (String × Nat) × List PictureRow)
  | [] => .ok (blobs, pend)
  | f :: fs =>
    if f.decodes = false then .error (.processing, blobs, written)
    else if f.origWriteOk = false then .error (.storage, blobs, written)
    else
      if f.thumbWriteOk = false then
        .error (.storage, blobs ++ [(f.origPath, f.origBytes)], written ++ [f.origPath])
      else
        processFiles (blobs ++ [(f.origPath, f.origBytes), (f.thumbPath, f.thumbBytes)])
          (pend ++ [f.meta]) (written ++ [f.origPath, f.thumbPath]) fs

/-- Modelled from the spec: `CreateBatch` persistence (the backend sources are
absent from the repository snapshot).  On success the metadata rows commit in
one transaction; on any failure the batch's written files are deleted and the
transaction never commits, so the durable state reverts. -/
def createBatch (s : DurableState) (files : List InFile) :
    Except IngestError Unit × DurableState :=
  match processFiles s.blobs [] [] files with
  | .ok (blobs, rows) => (.ok (), ⟨blobs, s.rows ++ rows⟩)
  | .error (e, blobs, written) => (.error e, ⟨deletePaths blobs written, s.rows⟩)

/-! Helper lemmas about `setStatus`. -/

lemma status_of_mem_setStatus {table : List PictureRow} {pid : Nat} {s : PicStatus}
    {q : PictureRow} (hq : q ∈ setStatus table pid s) (hid : q.id = pid) :
    q.status = s := by
  unfold setStatus at hq
  obtain ⟨q0, hq0, hmap⟩ := List.mem_map.mp hq
  by_cases h : q0.id = pid
  · rw [if_pos h] at hmap
    subst hmap
    rfl
  · rw [if_neg h] at hmap
    subst hmap
    exact absurd hid h

lemma mem_of_mem_setStatus {table : List PictureRow} {pid : Nat} {s : PicStatus}
    {q : PictureRow} (hq : q ∈ setStatus table pid s) (hid : q.id ≠ pid) :
    q ∈ table := by
  unfold setStatus at hq
  obtain ⟨q0, hq0, hmap⟩ := List.mem_map.mp hq
  by_cases h : q0.id = pid
  · rw [if_pos h] at hmap
    subst hmap
    exact absurd h hid
  · rw [if_neg h] at hmap
    subst hmap
    exact hq0

/-- C4: Restore succeeds and returns the picture to `Active` exactly when its
current status is `Deleted`; invoking Restore on a `Purged` picture fails with
`InvalidStateTransition` and leaves the table unchanged, and `Purged` is
terminal: neither soft delete nor purge moves a purged row either. -/
theorem c4_restore_transitions (table : List PictureRow) (pid : Nat) (p : PictureRow)
    (hp : table.find? (fun q => q.id == pid) = some p) :
    ((restorePicture table pid).1 = .ok () ↔ p.status = .deleted) ∧
    (p.status = .deleted →
      ∀ q ∈ (restorePicture table pid).2, q.id = pid → q.status = .active) ∧
    (p.status = .purged →
      restorePicture table pid = (.error .invalidStateTransition, table)) ∧
    (p.status = .purged →
      (softDeletePicture table pid).2 = table ∧ (purgePicture table pid).2 = table) := by
  refine ⟨?_, ?_, ?_, ?_⟩
  · simp only [restorePicture, hp]
    cases hs : p.status <;> simp [hs]
  · intro hdel q hq hid
    simp only [restorePicture, hp, if_pos hdel] at hq
    exact status_of_mem_setStatus hq hid
  · intro hpur
    simp only [restorePicture, hp]
    rw [if_neg (by rw [hpur]; simp)]
  · intro hpur
    constructor
    · simp only [softDeletePicture, hp]
      rw [if_neg (by rw [hpur]; simp)]
    · simp only [purgePicture, hp]
      rw [if_neg (by rw [hpur]; simp)]

/-- Concrete instantiation of `c4` on a one-row table whose picture is
`Deleted`. -/
theorem c4_restore_transitions_witness :
    ([(⟨1, 1, 1, 1, none, none, none, .deleted, 0⟩ : PictureRow)].find?
        (fun q => q.id == 1) = some ⟨1, 1, 1, 1, none, none, none, .deleted, 0⟩) ∧
    (((restorePicture [⟨1, 1, 1, 1, none, none, none, .deleted, 0⟩] 1).1 = .ok () ↔
        PicStatus.deleted = .deleted) ∧
     (PicStatus.deleted = .deleted →
       ∀ q ∈ (restorePicture [⟨1, 1, 1, 1, none, none, none, .deleted, 0⟩] 1).2,
         q.id = 1 → q.status = .active) ∧
     (PicStatus.deleted = .purged →
       restorePicture [⟨1, 1, 1, 1, none, none, none, .deleted, 0⟩] 1 =
         (.error .invalidStateTransition, [⟨1, 1, 1, 1, none, none, none, .deleted, 0⟩])) ∧
     (PicStatus.deleted = .purged →
       (softDeletePicture [⟨1, 1, 1, 1, none, none, none, .deleted, 0⟩] 1).2 =
           [⟨1, 1, 1, 1, none, none, none, .deleted, 0⟩] ∧
         (purgePicture [⟨1, 1, 1, 1, none, none, none, .deleted, 0⟩] 1).2 =
           [⟨1, 1, 1, 1, none, none, none, .deleted, 0⟩])) :=
  ⟨by decide,
   c4_restore_transitions [⟨1, 1, 1, 1, none, none, none, .deleted, 0⟩] 1
     ⟨1, 1, 1, 1, none, none, none, .deleted, 0⟩ (by decide)⟩

/-- C2: with an active identity, a cross-family resource is denied as
`NotFound` (never `Forbidden`) regardless of role, while a same-family
resource mutated by a general non-owner is denied as `Forbidden` (never
`NotFound`). -/
theorem c2_two_tier_denial (i : Identity) (a : GuardAction) (r : ResourceDesc)
    (hact : i.active = true) :
    (r.familyId ≠ i.familyId →
      authorize i a r = .denyNotFound ∧ authorize i a r ≠ .denyForbidden) ∧
    (r.familyId = i.familyId → i.role = .general → a = .mutate → r.ownerId ≠ i.userId →
      authorize i a r = .denyForbidden ∧ authorize i a r ≠ .denyNotFound) := by
  constructor
  · intro hfam
    unfold authorize
    rw [hact]
    simp [hfam]
  · intro hfam hrole ha howner
    unfold authorize
    rw [hact, hrole, ha]
    simp [hfam, howner]

/-- Concrete instantiation of `c2`: an active admin of family 1 touching a
family-2 resource. -/
theorem c2_two_tier_denial_witness :
    (⟨1, 1, .admin, true⟩ : Identity).active = true ∧
    (((⟨2, 9⟩ : ResourceDesc).familyId ≠ (⟨1, 1, .admin, true⟩ : Identity).familyId →
      authorize ⟨1, 1, .admin, true⟩ .mutate ⟨2, 9⟩ = .denyNotFound ∧
        authorize ⟨1, 1, .admin, true⟩ .mutate ⟨2, 9⟩ ≠ .denyForbidden) ∧
     ((⟨2, 9⟩ : ResourceDesc).familyId = (⟨1, 1, .admin, true⟩ : Identity).familyId →
        (⟨1, 1, .admin, true⟩ : Identity).role = .general → GuardAction.mutate = .mutate →
        (⟨2, 9⟩ : ResourceDesc).ownerId ≠ (⟨1, 1, .admin, true⟩ : Identity).userId →
      authorize ⟨1, 1, .admin, true⟩ .mutate ⟨2, 9⟩ = .denyForbidden ∧
        authorize ⟨1, 1, .admin, true⟩ .mutate ⟨2, 9⟩ ≠ .denyNotFound)) :=
  ⟨by decide, c2_two_tier_denial ⟨1, 1, .admin, true⟩ .mutate ⟨2, 9⟩ (by decide)⟩

/-- C7: when the longest edge exceeds 2048 px the stored dimensions have
longest edge exactly 2048; otherwise the dimensions are unchanged. -/
theorem c7_resize_longest_edge (w h : Nat) :
    (RESIZE_LIMIT < max w h →
      max (resizeDims w h).1 (resizeDims w h).2 = RESIZE_LIMIT) ∧
    (max w h ≤ RESIZE_LIMIT → resizeDims w h = (w, h)) := by
  constructor
  · intro hbig
    have hL : 0 < max w h := lt_trans (by norm_num [RESIZE_LIMIT]) hbig
    have hself : scaleEdge (max w h) (max w h) = RESIZE_LIMIT := by
      unfold scaleEdge
      rw [Nat.mul_add_div hL, Nat.div_eq_of_lt (Nat.div_lt_self hL (by norm_num)),
        Nat.add_zero]
    have hmono : ∀ e : Nat, e ≤ max w h → scaleEdge e (max w h) ≤ RESIZE_LIMIT := by
      intro e he
      calc scaleEdge e (max w h) ≤ scaleEdge (max w h) (max w h) := by
            unfold scaleEdge
            exact Nat.div_le_div_right (Nat.add_le_add_right (Nat.mul_le_mul_right _ he) _)
        _ = RESIZE_LIMIT := hself
    unfold resizeDims
    rw [if_neg (not_le.mpr hbig)]
    rcases Nat.le_total w h with hwh | hwh
    · have hmax : max w h = h := max_eq_right hwh
      rw [hmax] at hself hmono ⊢
      simp only
      rw [hself, max_eq_right (hmono w hwh)]
    · have hmax : max w h = w := max_eq_left hwh
      rw [hmax] at hself hmono ⊢
      simp only
      rw [hself, max_eq_left (hmono h hwh)]
  · intro hsmall
    unfold resizeDims
    rw [if_pos hsmall]

/-- Concrete instantiation of `c7`: a 3000×1800 input is stored as 2048×1229
(longest edge exactly 2048); a 1000×600 input is stored unchanged. -/
theorem c7_resize_longest_edge_witness :
    resizeDims 3000 1800 = (2048, 1229) ∧
    max (resizeDims 3000 1800).1 (resizeDims 3000 1800).2 = RESIZE_LIMIT ∧
    resizeDims 1000 600 = (1000, 600) :=
  ⟨by decide, (c7_resize_longest_edge 3000 1800).1 (by decide),
    (c7_resize_longest_edge 1000 600).2 (by decide)⟩

/-- C9: a file over 50MB makes the selection fail its per-file checks (and
hence `handleFileChange` rejects the batch), while a file of at most 50MB of
an allowed type passes the size check. -/
theorem c9_size_limit (newFiles : List UploadFile) (f : UploadFile)
    (hf : f ∈ newFiles) (hsize : MAX_FILE_SIZE < f.size) :
    (∃ e, checkFiles newFiles = some e) ∧
    (∀ sel : List UploadFile, sel.length + newFiles.length ≤ MAX_FILES →
      ∃ e, handleFileChange sel newFiles = .error e) ∧
    (∀ g : UploadFile, g.size ≤ MAX_FILE_SIZE → isAllowedFile g = true →
      checkFiles [g] = none) := by
  have hcheck : ∃ e, checkFiles newFiles = some e := by
    induction newFiles with
    | nil => cases hf
    | cons a as ih =>
      by_cases ha : MAX_FILE_SIZE < a.size
      · exact ⟨.tooLarge a.name, by simp [checkFiles, ha]⟩
      · by_cases hall : isAllowedFile a = true
        · have hfas : f ∈ as := by
            rcases List.mem_cons.mp hf with rfl | h
            · exact absurd hsize (by omega)
            · exact h
          obtain ⟨e, he⟩ := ih hfas
          exact ⟨e, by simp [checkFiles, Nat.not_lt.mp ha, hall, he]⟩
        · have hall' : isAllowedFile a = false := by simpa using hall
          exact ⟨.badType a.name, by simp [checkFiles, Nat.not_lt.mp ha, hall']⟩
  refine ⟨hcheck, ?_, ?_⟩
  · intro sel hle
    obtain ⟨e, he⟩ := hcheck
    have hne : newFiles.length ≠ 0 := by
      cases newFiles
      · cases hf
      · simp
    exact ⟨e, by simp [handleFileChange, hne, Nat.not_lt.mpr hle, he]⟩
  · intro g hg hallow
    simp [checkFiles, Nat.not_lt.mpr hg, hallow]

/-- Concrete instantiation of `c9`: a 50MB+1-byte JPEG is rejected, a file of
exactly 50MB passes the size check. -/
theorem c9_size_limit_witness :
    (⟨"big.jpg", "image/jpeg", 50 * 1024 * 1024 + 1⟩ : UploadFile) ∈
        [(⟨"big.jpg", "image/jpeg", 50 * 1024 * 1024 + 1⟩ : UploadFile)] ∧
    MAX_FILE_SIZE < (⟨"big.jpg", "image/jpeg", 50 * 1024 * 1024 + 1⟩ : UploadFile).size ∧
    ((∃ e, checkFiles [⟨"big.jpg", "image/jpeg", 50 * 1024 * 1024 + 1⟩] = some e) ∧
     (∀ sel : List UploadFile,
        sel.length + [(⟨"big.jpg", "image/jpeg", 50 * 1024 * 1024 + 1⟩ : UploadFile)].length ≤
          MAX_FILES →
        ∃ e, handleFileChange sel [⟨"big.jpg", "image/jpeg", 50 * 1024 * 1024 + 1⟩] = .error e) ∧
     (∀ g : UploadFile, g.size ≤ MAX_FILE_SIZE → isAllowedFile g = true →
        checkFiles [g] = none)) :=
  ⟨by decide, by decide,
   c9_size_limit [⟨"big.jpg", "image/jpeg", 50 * 1024 * 1024 + 1⟩]
     ⟨"big.jpg", "image/jpeg", 50 * 1024 * 1024 + 1⟩ (by decide) (by decide)⟩

/-- C5: starting from a selection within the cap, a non-empty file-change
event that would push the selection beyond 5 files is rejected outright (no
per-file processing, selection unchanged); any accepted selection stays at
most 5 files; and submission requires at least one selected file, so a batch
reaching the server has 1–5 files. -/
theorem c5_batch_size_bounds (sel newFiles : List UploadFile)
    (hsel : sel.length ≤ MAX_FILES) :
    (newFiles ≠ [] → MAX_FILES < sel.length + newFiles.length →
      handleFileChange sel newFiles = .error .tooMany) ∧
    (∀ l, handleFileChange sel newFiles = .ok l → l.length ≤ MAX_FILES) ∧
    (∀ cat, handleSubmitAccepts sel cat = true → 1 ≤ sel.length) := by
  refine ⟨?_, ?_, ?_⟩
  · intro hne hover
    have hlen : newFiles.length ≠ 0 := by
      cases newFiles
      · exact absurd rfl hne
      · simp
    simp [handleFileChange, hlen, hover]
  · intro l hl
    unfold handleFileChange at hl
    by_cases h0 : newFiles.length = 0
    · rw [if_pos h0] at hl
      cases hl
      omega
    · rw [if_neg h0] at hl
      by_cases hover : MAX_FILES < sel.length + newFiles.length
      · rw [if_pos hover] at hl
        cases hl
      · rw [if_neg hover] at hl
        cases hc : checkFiles newFiles with
        | some e => rw [hc] at hl; cases hl
        | none =>
          rw [hc] at hl
          cases hl
          rw [List.length_append]
          omega
  · intro cat hacc
    unfold handleSubmitAccepts at hacc
    by_cases h0 : sel.length = 0
    · simp [h0] at hacc
    · omega

/-- Concrete instantiation of `c5`: six JPEG files chosen at once are rejected
with the batch-size error. -/
theorem c5_batch_size_bounds_witness :
    ([] : List UploadFile).length ≤ MAX_FILES ∧
    ((List.replicate 6 (⟨"a.jpg", "image/jpeg", 1⟩ : UploadFile) ≠ [] →
        MAX_FILES < ([] : List UploadFile).length +
          (List.replicate 6 (⟨"a.jpg", "image/jpeg", 1⟩ : UploadFile)).length →
        handleFileChange [] (List.replicate 6 ⟨"a.jpg", "image/jpeg", 1⟩) = .error .tooMany) ∧
     (∀ l, handleFileChange [] (List.replicate 6 ⟨"a.jpg", "image/jpeg", 1⟩) = .ok l →
        l.length ≤ MAX_FILES) ∧
     (∀ cat, handleSubmitAccepts [] cat = true → 1 ≤ ([] : List UploadFile).length)) :=
  ⟨by decide, c5_batch_size_bounds [] (List.replicate 6 ⟨"a.jpg", "image/jpeg", 1⟩) (by decide)⟩

/-- C6 counterexample: a file named `a.heic` with claimed MIME
`application/pdf` (neither allowed, nor empty, nor generic) is accepted by the
source's `isAllowedFile`, while the claimed rule — HEIC extension only rescues
an empty/generic MIME — rejects it. -/
theorem c6_counterexample :
    isAllowedFile ⟨"a.heic", "application/pdf", 0⟩ = true ∧
    specAllowedFile ⟨"a.heic", "application/pdf", 0⟩ = false := by
  decide

/-- C6 amended: a file passes the type check if and only if its claimed MIME
type is one of the six allowed image MIME types, or its filename's lower-cased
extension is `heic`/`heif` — regardless of the claimed MIME type in the
latter case. -/
theorem c6_type_check_amended (f : UploadFile) :
    isAllowedFile f = true ↔
      (f.type ∈ ALLOWED_TYPES ∨ fileExt f.name = "heic" ∨ fileExt f.name = "heif") := by
  unfold isAllowedFile isHEICFile
  by_cases h : fileExt f.name = "heic" ∨ fileExt f.name = "heif"
  · rcases h with h | h <;> simp [h]
  · push_neg at h
    rw [if_neg (by simp [h.1, h.2])]
    constructor
    · intro hc
      exact Or.inl (List.mem_of_elem_eq_true hc)
    · rintro (hm | h1 | h2)
      · exact List.elem_eq_true_of_mem hm
      · exact absurd h1 h.1
      · exact absurd h2 h.2

/-- Sequentially updating one picture per loaded photo amounts to one map over
the table touching exactly the rows whose id occurs among the photos. -/
lemma handleUpdatePhoto_eq_map (photos : List PictureRow) (table : List PictureRow)
    (t d : String) :
    handleUpdatePhoto table photos t d =
      table.map (fun q =>
        if q.id ∈ photos.map PictureRow.id then
          { q with title := jsStringOrNull t, description := jsStringOrNull d }
        else q) := by
  induction photos generalizing table with
  | nil => simp [handleUpdatePhoto]
  | cons p ps ih =>
    show handleUpdatePhoto (updatePicture table p.id _ _) ps t d = _
    rw [ih]
    unfold updatePicture
    rw [List.map_map]
    apply List.map_congr_left
    intro q _
    by_cases hqp : q.id = p.id
    · by_cases hmem : q.id ∈ ps.map PictureRow.id <;>
        simp [Function.comp, hqp, hmem, List.mem_cons]
    · by_cases hmem : q.id ∈ ps.map PictureRow.id <;>
        simp [Function.comp, hqp, hmem, List.mem_cons]

/-- C3: if the loaded photos cover every row of the target group, the
metadata-edit loop leaves every row of that group carrying the new title and
description, both in the whole table and in the group-detail view fetched
afterwards. -/
theorem c3_group_metadata_propagation (table photos : List PictureRow) (g : Nat)
    (t d : String)
    (hcover : ∀ q ∈ table, q.groupId = g → q.id ∈ photos.map PictureRow.id) :
    (∀ q ∈ handleUpdatePhoto table photos t d, q.groupId = g →
      q.title = jsStringOrNull t ∧ q.description = jsStringOrNull d) ∧
    (∀ q ∈ getGroupDetail (handleUpdatePhoto table photos t d) g,
      q.title = jsStringOrNull t ∧ q.description = jsStringOrNull d) := by
  have hmain : ∀ q ∈ handleUpdatePhoto table photos t d, q.groupId = g →
      q.title = jsStringOrNull t ∧ q.description = jsStringOrNull d := by
    intro q hq hg
    rw [handleUpdatePhoto_eq_map] at hq
    obtain ⟨q0, hq0, hmap⟩ := List.mem_map.mp hq
    by_cases hmem : q0.id ∈ photos.map PictureRow.id
    · rw [if_pos hmem] at hmap
      subst hmap
      exact ⟨rfl, rfl⟩
    · rw [if_neg hmem] at hmap
      subst hmap
      exact absurd (hcover q0 hq0 hg) hmem
  refine ⟨hmain, ?_⟩
  intro q hq
  unfold getGroupDetail at hq
  have h := List.mem_filter.mp hq
  exact hmain q h.1 (by simpa using h.2)

/-- Concrete instantiation of `c3` on a two-member group. -/
theorem c3_group_metadata_propagation_witness :
    (∀ q ∈ [(⟨1, 1, 1, 7, none, none, none, .active, 0⟩ : PictureRow),
            ⟨2, 1, 1, 7, none, none, none, .active, 0⟩], q.groupId = 7 →
      q.id ∈ [(⟨1, 1, 1, 7, none, none, none, .active, 0⟩ : PictureRow),
              ⟨2, 1, 1, 7, none, none, none, .active, 0⟩].map PictureRow.id) ∧
    ((∀ q ∈ handleUpdatePhoto
        [⟨1, 1, 1, 7, none, none, none, .active, 0⟩, ⟨2, 1, 1, 7, none, none, none, .active, 0⟩]
        [⟨1, 1, 1, 7, none, none, none, .active, 0⟩, ⟨2, 1, 1, 7, none, none, none, .active, 0⟩]
        "Trip" "", q.groupId = 7 →
        q.title = jsStringOrNull "Trip" ∧ q.description = jsStringOrNull "") ∧
     (∀ q ∈ getGroupDetail (handleUpdatePhoto
        [⟨1, 1, 1, 7, none, none, none, .active, 0⟩, ⟨2, 1, 1, 7, none, none, none, .active, 0⟩]
        [⟨1, 1, 1, 7, none, none, none, .active, 0⟩, ⟨2, 1, 1, 7, none, none, none, .active, 0⟩]
        "Trip" "") 7,
        q.title = jsStringOrNull "Trip" ∧ q.description = jsStringOrNull "")) :=
  ⟨by decide,
   c3_group_metadata_propagation
     [⟨1, 1, 1, 7, none, none, none, .active, 0⟩, ⟨2, 1, 1, 7, none, none, none, .active, 0⟩]
     [⟨1, 1, 1, 7, none, none, none, .active, 0⟩, ⟨2, 1, 1, 7, none, none, none, .active, 0⟩]
     7 "Trip" "" (by decide)⟩

/-- Soft-deleting some row never reverts another row's `Deleted` status. -/
lemma deleted_stable_setStatus {tbl : List PictureRow} {j i : Nat}
    (h : ∀ q ∈ tbl, q.id = i → q.status = .deleted) :
    ∀ q ∈ setStatus tbl j .deleted, q.id = i → q.status = .deleted := by
  intro q hq hqi
  by_cases hij : q.id = j
  · exact status_of_mem_setStatus hq hij
  · exact h q (mem_of_mem_setStatus hq hij) hqi

/-- Rows already `Deleted` for a given id stay `Deleted` through the rest of
the delete loop. -/
lemma deleteLoop_preserves_deleted (l : List (PictureRow × Bool)) :
    ∀ (tbl : List PictureRow) (i : Nat),
    (∀ q ∈ tbl, q.id = i → q.status = .deleted) →
    ∀ q ∈ (deleteLoop tbl l).2, q.id = i → q.status = .deleted := by
  induction l with
  | nil => intro tbl i h; simpa [deleteLoop] using h
  | cons pb ps ih =>
    intro tbl i h
    obtain ⟨p, ok⟩ := pb
    cases ok
    · simpa [deleteLoop] using h
    · simpa [deleteLoop] using ih _ i (deleted_stable_setStatus h)

/-- Rows whose id is touched by no element of the loop keep their `Active`
status. -/
lemma deleteLoop_preserves_active (l : List (PictureRow × Bool)) :
    ∀ (tbl : List PictureRow) (i : Nat),
    (∀ pb ∈ l, (pb : PictureRow × Bool).1.id ≠ i) →
    (∀ q ∈ tbl, q.id = i → q.status = .active) →
    ∀ q ∈ (deleteLoop tbl l).2, q.id = i → q.status = .active := by
  induction l with
  | nil => intro tbl i _ h; simpa [deleteLoop] using h
  | cons pb ps ih =>
    intro tbl i hids h
    obtain ⟨p, ok⟩ := pb
    cases ok
    · simpa [deleteLoop] using h
    · have h' : ∀ q ∈ setStatus tbl p.id .deleted, q.id = i → q.status = .active := by
        intro q hq hqi
        have hpi : p.id ≠ i := hids (p, true) (List.mem_cons_self _ _)
        have hqp : q.id ≠ p.id := by rw [hqi]; exact fun hc => hpi hc.symm
        exact h q (mem_of_mem_setStatus hq hqp) hqi
      have hids' : ∀ pb ∈ ps, (pb : PictureRow × Bool).1.id ≠ i := fun pb hpb =>
        hids pb (List.mem_cons_of_mem _ hpb)
      simpa [deleteLoop] using ih _ i hids' h'

/-- A loop whose calls all succeed reports success. -/
lemma deleteLoop_all_ok_fst (l : List PictureRow) :
    ∀ tbl, (deleteLoop tbl (l.map (fun p => (p, true)))).1 = true := by
  induction l with
  | nil => intro tbl; simp [deleteLoop]
  | cons p ps ih => intro tbl; simpa [deleteLoop] using ih _

/-- A loop whose calls all succeed soft-deletes every listed photo's rows. -/
lemma deleteLoop_all_ok_deletes (l : List PictureRow) :
    ∀ (tbl : List PictureRow) (p : PictureRow), p ∈ l →
    ∀ q ∈ (deleteLoop tbl (l.map (fun p => (p, true)))).2, q.id = p.id →
      q.status = .deleted := by
  induction l with
  | nil => intro tbl p hp; cases hp
  | cons a as ih =>
    intro tbl p hp q hq hid
    rw [List.map_cons] at hq
    simp only [deleteLoop, if_pos] at hq
    rcases List.mem_cons.mp hp with rfl | hp'
    · exact deleteLoop_preserves_deleted _ _ _
        (fun r hr hri => status_of_mem_setStatus hr hri) q hq hid
    · exact ih _ p hp' q hq hid

/-- Failure part of the group delete: the loop aborts at the failing call,
rows of the already-processed members are `Deleted`, rows of the failing and
the remaining members are still `Active`. -/
lemma deleteLoop_abort (pre : List PictureRow) (pf : PictureRow) (post : List PictureRow) :
    ∀ (table : List PictureRow),
    ((pre ++ pf :: post).map PictureRow.id).Nodup →
    (∀ p ∈ pre ++ pf :: post, ∀ q ∈ table, q.id = p.id → q.status = .active) →
    (deleteLoop table
        (pre.map (fun p => (p, true)) ++ (pf, false) :: post.map (fun p => (p, true)))).1 =
      false ∧
    (∀ p ∈ pre,
      ∀ q ∈ (deleteLoop table
          (pre.map (fun p => (p, true)) ++ (pf, false) :: post.map (fun p => (p, true)))).2,
        q.id = p.id → q.status = .deleted) ∧
    (∀ p ∈ pf :: post,
      ∀ q ∈ (deleteLoop table
          (pre.map (fun p => (p, true)) ++ (pf, false) :: post.map (fun p => (p, true)))).2,
        q.id = p.id → q.status = .active) := by
  induction pre with
  | nil =>
    intro table _ hactive
    refine ⟨by simp [deleteLoop], ?_, ?_⟩
    · intro p hp
      cases hp
    · intro p hp q hq hid
      simp only [List.nil_append, List.map_nil, deleteLoop, if_neg] at hq
      exact hactive p hp q (by simpa [deleteLoop] using hq) hid
  | cons a pre' ih =>
    intro table hnodup hactive
    have hstep :
        deleteLoop table
            ((a :: pre').map (fun p => (p, true)) ++ (pf, false) :: post.map (fun p => (p, true))) =
          deleteLoop (setStatus table a.id .deleted)
            (pre'.map (fun p => (p, true)) ++ (pf, false) :: post.map (fun p => (p, true))) := by
      simp [deleteLoop]
    have hmem_a : a.id ∉ (pre' ++ pf :: post).map PictureRow.id := by
      have := hnodup
      rw [List.cons_append, List.map_cons] at this
      exact (List.nodup_cons.mp this).1
    have hnodup' : ((pre' ++ pf :: post).map PictureRow.id).Nodup := by
      have := hnodup
      rw [List.cons_append, List.map_cons] at this
      exact (List.nodup_cons.mp this).2
    have hactive' : ∀ p ∈ pre' ++ pf :: post, ∀ q ∈ setStatus table a.id .deleted,
        q.id = p.id → q.status = .active := by
      intro p hp q hq hid
      have hpa : p.id ≠ a.id := by
        intro hc
        exact hmem_a (hc ▸ List.mem_map_of_mem PictureRow.id hp)
      have hqa : q.id ≠ a.id := by rw [hid]; exact hpa
      exact hactive p (List.mem_cons_of_mem _ hp) q (mem_of_mem_setStatus hq hqa) hid
    obtain ⟨hfst, hdel, hact⟩ := ih (setStatus table a.id .deleted) hnodup' hactive'
    refine ⟨by rw [hstep]; exact hfst, ?_, ?_⟩
    · intro p hp q hq hid
      rw [hstep] at hq
      rcases List.mem_cons.mp hp with rfl | hp'
      · exact deleteLoop_preserves_deleted _ _ _
          (fun r hr hri => status_of_mem_setStatus hr hri) q hq hid
      · exact hdel p hp' q hq hid
    · intro p hp q hq hid
      rw [hstep] at hq
      exact hact p hp q hq hid

/-- C10: the photo-detail delete action soft-deletes the whole loaded group in
sequence — if every call succeeds the loop reports success and every member's
row is `Deleted`; if the call for one member fails, the loop aborts there,
earlier members' rows are `Deleted` and the failing and later members' rows
are still `Active`. -/
theorem c10_group_delete_sequence (table : List PictureRow) (pre post : List PictureRow)
    (pf : PictureRow)
    (hnodup : ((pre ++ pf :: post).map PictureRow.id).Nodup)
    (hactive : ∀ p ∈ pre ++ pf :: post, ∀ q ∈ table, q.id = p.id → q.status = .active) :
    ((deleteLoop table ((pre ++ pf :: post).map (fun p => (p, true)))).1 = true ∧
     ∀ p ∈ pre ++ pf :: post,
       ∀ q ∈ (deleteLoop table ((pre ++ pf :: post).map (fun p => (p, true)))).2,
         q.id = p.id → q.status = .deleted) ∧
    ((deleteLoop table
        (pre.map (fun p => (p, true)) ++ (pf, false) :: post.map (fun p => (p, true)))).1 =
      false ∧
     (∀ p ∈ pre,
       ∀ q ∈ (deleteLoop table
           (pre.map (fun p => (p, true)) ++ (pf, false) :: post.map (fun p => (p, true)))).2,
         q.id = p.id → q.status = .deleted) ∧
     (∀ p ∈ pf :: post,
       ∀ q ∈ (deleteLoop table
           (pre.map (fun p => (p, true)) ++ (pf, false) :: post.map (fun p => (p, true)))).2,
         q.id = p.id → q.status = .active)) := by
  refine ⟨⟨deleteLoop_all_ok_fst _ _, ?_⟩, deleteLoop_abort pre pf post table hnodup hactive⟩
  intro p hp q hq hid
  exact deleteLoop_all_ok_deletes _ _ p hp q hq hid

/-- Concrete instantiation of `c10` on a three-member group whose second
delete call fails. -/
theorem c10_group_delete_sequence_witness :
    (([(⟨1, 1, 1, 7, none, none, none, .active, 0⟩ : PictureRow)] ++
        (⟨2, 1, 1, 7, none, none, none, .active, 0⟩ : PictureRow) ::
          [(⟨3, 1, 1, 7, none, none, none, .active, 0⟩ : PictureRow)]).map
        PictureRow.id).Nodup ∧
    (∀ p ∈ [(⟨1, 1, 1, 7, none, none, none, .active, 0⟩ : PictureRow)] ++
        (⟨2, 1, 1, 7, none, none, none, .active, 0⟩ : PictureRow) ::
          [(⟨3, 1, 1, 7, none, none, none, .active, 0⟩ : PictureRow)],
      ∀ q ∈ [(⟨1, 1, 1, 7, none, none, none, .active, 0⟩ : PictureRow),
             ⟨2, 1, 1, 7, none, none, none, .active, 0⟩,
             ⟨3, 1, 1, 7, none, none, none, .active, 0⟩],
        q.id = p.id → q.status = .active) ∧
    (((deleteLoop
          [⟨1, 1, 1, 7, none, none, none, .active, 0⟩,
           ⟨2, 1, 1, 7, none, none, none, .active, 0⟩,
           ⟨3, 1, 1, 7, none, none, none, .active, 0⟩]
          (([(⟨1, 1, 1, 7, none, none, none, .active, 0⟩ : PictureRow)] ++
              (⟨2, 1, 1, 7, none, none, none, .active, 0⟩ : PictureRow) ::
                [(⟨3, 1, 1, 7, none, none, none, .active, 0⟩ : PictureRow)]).map
            (fun p => (p, true)))).1 = true ∧
      ∀ p ∈ [(⟨1, 1, 1, 7, none, none, none, .active, 0⟩ : PictureRow)] ++
          (⟨2, 1, 1, 7, none, none, none, .active, 0⟩ : PictureRow) ::
            [(⟨3, 1, 1, 7, none, none, none, .active, 0⟩ : PictureRow)],
        ∀ q ∈ (deleteLoop
            [⟨1, 1, 1, 7, none, none, none, .active, 0⟩,
             ⟨2, 1, 1, 7, none, none, none, .active, 0⟩,
             ⟨3, 1, 1, 7, none, none, none, .active, 0⟩]
            (([(⟨1, 1, 1, 7, none, none, none, .active, 0⟩ : PictureRow)] ++
                (⟨2, 1, 1, 7, none, none, none, .active, 0⟩ : PictureRow) ::
                  [(⟨3, 1, 1, 7, none, none, none, .active, 0⟩ : PictureRow)]).map
              (fun p => (p, true)))).2,
          q.id = p.id → q.status = .deleted) ∧
     ((deleteLoop
          [⟨1, 1, 1, 7, none, none, none, .active, 0⟩,
           ⟨2, 1, 1, 7, none, none, none, .active, 0⟩,
           ⟨3, 1, 1, 7, none, none, none, .active, 0⟩]
          ([(⟨1, 1, 1, 7, none, none, none, .active, 0⟩ : PictureRow)].map (fun p => (p, true)) ++
            ((⟨2, 1, 1, 7, none, none, none, .active, 0⟩ : PictureRow), false) ::
              [(⟨3, 1, 1, 7, none, none, none, .active, 0⟩ : PictureRow)].map
                (fun p => (p, true)))).1 = false ∧
      (∀ p ∈ [(⟨1, 1, 1, 7, none, none, none, .active, 0⟩ : PictureRow)],
        ∀ q ∈ (deleteLoop
            [⟨1, 1, 1, 7, none, none, none, .active, 0⟩,
             ⟨2, 1, 1, 7, none, none, none, .active, 0⟩,
             ⟨3, 1, 1, 7, none, none, none, .active, 0⟩]
            ([(⟨1, 1, 1, 7, none, none, none, .active, 0⟩ : PictureRow)].map
                (fun p => (p, true)) ++
              ((⟨2, 1, 1, 7, none, none, none, .active, 0⟩ : PictureRow), false) ::
                [(⟨3, 1, 1, 7, none, none, none, .active, 0⟩ : PictureRow)].map
                  (fun p => (p, true)))).2,
          q.id = p.id → q.status = .deleted) ∧
      (∀ p ∈ (⟨2, 1, 1, 7, none, none, none, .active, 0⟩ : PictureRow) ::
          [(⟨3, 1, 1, 7, none, none, none, .active, 0⟩ : PictureRow)],
        ∀ q ∈ (deleteLoop
            [⟨1, 1, 1, 7, none, none, none, .active, 0⟩,
             ⟨2, 1, 1, 7, none, none, none, .active, 0⟩,
             ⟨3, 1, 1, 7, none, none, none, .active, 0⟩]
            ([(⟨1, 1, 1, 7, none, none, none, .active, 0⟩ : PictureRow)].map
                (fun p => (p, true)) ++
              ((⟨2, 1, 1, 7, none, none, none, .active, 0⟩ : PictureRow), false) ::
                [(⟨3, 1, 1, 7, none, none, none, .active, 0⟩ : PictureRow)].map
                  (fun p => (p, true)))).2,
          q.id = p.id → q.status = .active))) :=
  ⟨by decide, by decide,
   c10_group_delete_sequence
     [⟨1, 1, 1, 7, none, none, none, .active, 0⟩,
      ⟨2, 1, 1, 7, none, none, none, .active, 0⟩,
      ⟨3, 1, 1, 7, none, none, none, .active, 0⟩]
     [⟨1, 1, 1, 7, none, none, none, .active, 0⟩]
     [⟨3, 1, 1, 7, none, none, none, .active, 0⟩]
     ⟨2, 1, 1, 7, none, none, none, .active, 0⟩
     (by decide) (by decide)⟩

/-- C8: the returned page is ordered by `create_date` descending with ties
broken by `id` descending, every returned picture matches the filter, `total`
is the count of individual matching pictures, and `has_more` holds exactly
when `offset + limit < total`. -/
theorem c8_listing_order_total (table : List PictureRow) (matchesF : PictureRow → Bool)
    (limit offset : Nat) :
    List.Sorted picOrder (listPictures table matchesF limit offset).pictures ∧
    (∀ p ∈ (listPictures table matchesF limit offset).pictures, matchesF p = true) ∧
    (listPictures table matchesF limit offset).total = (table.filter matchesF).length ∧
    ((listPictures table matchesF limit offset).has_more = true ↔
      offset + limit < (listPictures table matchesF limit offset).total) := by
  have hsorted := List.sorted_insertionSort picOrder (table.filter matchesF)
  have hsub :
      (((List.insertionSort picOrder (table.filter matchesF)).drop offset).take limit).Sublist
        (List.insertionSort picOrder (table.filter matchesF)) :=
    (List.take_sublist _ _).trans (List.drop_sublist _ _)
  refine ⟨?_, ?_, rfl, ?_⟩
  · exact List.Pairwise.sublist hsub hsorted
  · intro p hp
    have hp' : p ∈ List.insertionSort picOrder (table.filter matchesF) := hsub.subset hp
    have hpf : p ∈ table.filter matchesF := (List.perm_insertionSort picOrder _).subset hp'
    exact (List.mem_filter.mp hpf).2
  · exact decide_eq_true_iff

/-- Concrete instantiation of `c8` on a three-row table with a category
filter. -/
theorem c8_listing_order_total_witness :
    List.Sorted picOrder
      (listPictures
        [⟨1, 1, 1, 7, none, none, some 5, .active, 10⟩,
         ⟨2, 1, 1, 8, none, none, some 5, .active, 20⟩,
         ⟨3, 1, 1, 9, none, none, some 6, .active, 30⟩]
        (fun p => p.categoryId == some 5) 1 0).pictures ∧
    (∀ p ∈ (listPictures
        [⟨1, 1, 1, 7, none, none, some 5, .active, 10⟩,
         ⟨2, 1, 1, 8, none, none, some 5, .active, 20⟩,
         ⟨3, 1, 1, 9, none, none, some 6, .active, 30⟩]
        (fun p => p.categoryId == some 5) 1 0).pictures,
      (p.categoryId == some 5) = true) ∧
    (listPictures
        [⟨1, 1, 1, 7, none, none, some 5, .active, 10⟩,
         ⟨2, 1, 1, 8, none, none, some 5, .active, 20⟩,
         ⟨3, 1, 1, 9, none, none, some 6, .active, 30⟩]
        (fun p => p.categoryId == some 5) 1 0).total =
      ([⟨1, 1, 1, 7, none, none, some 5, .active, 10⟩,
        ⟨2, 1, 1, 8, none, none, some 5, .active, 20⟩,
        ⟨3, 1, 1, 9, none, none, some 6, .active, 30⟩].filter
          (fun p : PictureRow => p.categoryId == some 5)).length ∧
    ((listPictures
        [⟨1, 1, 1, 7, none, none, some 5, .active, 10⟩,
         ⟨2, 1, 1, 8, none, none, some 5, .active, 20⟩,
         ⟨3, 1, 1, 9, none, none, some 6, .active, 30⟩]
        (fun p => p.categoryId == some 5) 1 0).has_more = true ↔
      0 + 1 < (listPictures
        [⟨1, 1, 1, 7, none, none, some 5, .active, 10⟩,
         ⟨2, 1, 1, 8, none, none, some 5, .active, 20⟩,
         ⟨3, 1, 1, 9, none, none, some 6, .active, 30⟩]
        (fun p => p.categoryId == some 5) 1 0).total) :=
  c8_listing_order_total
    [⟨1, 1, 1, 7, none, none, some 5, .active, 10⟩,
     ⟨2, 1, 1, 8, none, none, some 5, .active, 20⟩,
     ⟨3, 1, 1, 9, none, none, some 6, .active, 30⟩]
    (fun p => p.categoryId == some 5) 1 0

/-- Deleting exactly the freshly written paths from a blob store restores the
pre-batch contents: pre-existing blobs occupy none of the written paths, and
every blob appended by the batch occupies one of them. -/
lemma deletePaths_append_restore (s0 extra : List (String × Nat)) (written : List String)
    (hextra : ∀ b ∈ extra, b.1 ∈ written)
    (hdisj : ∀ b ∈ s0, b.1 ∉ written) :
    deletePaths (s0 ++ extra) written = s0 := by
  unfold deletePaths
  rw [List.filter_append]
  have h1 : s0.filter (fun b => !(written.contains b.1)) = s0 := by
    rw [List.filter_eq_self]
    intro b hb
    simpa using hdisj b hb
  have h2 : extra.filter (fun b => !(written.contains b.1)) = [] := by
    rw [List.filter_eq_nil_iff]
    intro b hb
    simpa using hextra b hb
  rw [h1, h2, List.append_nil]

/-- If the pipeline reports success, every file of the batch decoded and both
of its writes succeeded. -/
lemma processFiles_ok_all (files : List InFile) :
    ∀ (blobs : List (String × Nat)) (pend : List PictureRow) (written : List String)
      (r : List (String × Nat) × List PictureRow),
    processFiles blobs pend written files = .ok r →
    ∀ f ∈ files, f.decodes = true ∧ f.origWriteOk = true ∧ f.thumbWriteOk = true := by
  induction files with
  | nil => intro _ _ _ _ _ f hf; cases hf
  | cons a as ih =>
    intro blobs pend written r h f hf
    by_cases h1 : a.decodes = false
    · simp [processFiles, h1] at h
    · by_cases h2 : a.origWriteOk = false
      · simp [processFiles, h1, h2] at h
      · by_cases h3 : a.thumbWriteOk = false
        · simp [processFiles, h1, h2, h3] at h
        · simp only [processFiles, if_neg h1, if_neg h2, if_neg h3] at h
          rcases List.mem_cons.mp hf with rfl | hfas
          · exact ⟨by simpa using h1, by simpa using h2, by simpa using h3⟩
          · exact ih _ _ _ _ h f hfas

/-- A batch containing a failing file makes the pipeline report an error. -/
lemma processFiles_error_exists (files : List InFile)
    (hfail : ∃ f ∈ files,
      f.decodes = false ∨ f.origWriteOk = false ∨ f.thumbWriteOk = false) :
    ∀ (blobs : List (String × Nat)) (pend : List PictureRow) (written : List String),
    ∃ e b w, processFiles blobs pend written files = .error (e, b, w) := by
  intro blobs pend written
  cases h : processFiles blobs pend written files with
  | ok r =>
    obtain ⟨f, hf, hbad⟩ := hfail
    have hall := processFiles_ok_all files blobs pend written r h f hf
    rcases hbad with hb | hb | hb
    · rw [hall.1] at hb
      cases hb
    · rw [hall.2.1] at hb
      cases hb
    · rw [hall.2.2] at hb
      cases hb
  | error E =>
    obtain ⟨e, b, w⟩ := E
    exact ⟨e, b, w, rfl⟩

/-- Rollback lemma: starting from a store `s0 ++ extra` whose batch-written
paths are exactly those recorded in `written`, all fresh with respect to `s0`,
a failing run of the pipeline leaves an error state whose compensating
deletion restores `s0` exactly. -/
lemma processFiles_error_rollback (s0 : List (String × Nat)) (files : List InFile) :
    ∀ (extra : List (String × Nat)) (pend : List PictureRow) (written : List String)
      (e : IngestError) (b : List (String × Nat)) (w : List String),
    (∀ bl ∈ extra, bl.1 ∈ written) →
    (∀ bl ∈ s0, bl.1 ∉ written) →
    (∀ f ∈ files, ∀ bl ∈ s0, bl.1 ≠ f.origPath ∧ bl.1 ≠ f.thumbPath) →
    processFiles (s0 ++ extra) pend written files = .error (e, b, w) →
    deletePaths b w = s0 := by
  induction files with
  | nil => intro extra pend written e b w _ _ _ h; simp [processFiles] at h
  | cons a as ih =>
    intro extra pend written e b w hextra hdisj hfresh h
    by_cases h1 : a.decodes = false
    · simp only [processFiles, if_pos h1, Except.error.injEq, Prod.mk.injEq] at h
      obtain ⟨-, hb, hw⟩ := h
      rw [← hb, ← hw]
      exact deletePaths_append_restore s0 extra written hextra hdisj
    · by_cases h2 : a.origWriteOk = false
      · simp only [processFiles, if_neg h1, if_pos h2, Except.error.injEq,
          Prod.mk.injEq] at h
        obtain ⟨-, hb, hw⟩ := h
        rw [← hb, ← hw]
        exact deletePaths_append_restore s0 extra written hextra hdisj
      · by_cases h3 : a.thumbWriteOk = false
        · simp only [processFiles, if_neg h1, if_neg h2, if_pos h3, Except.error.injEq,
            Prod.mk.injEq] at h
          obtain ⟨-, hb, hw⟩ := h
          rw [← hb, ← hw, List.append_assoc]
          apply deletePaths_append_restore s0 (extra ++ [(a.origPath, a.origBytes)])
            (written ++ [a.origPath])
          · intro bl hbl
            rcases List.mem_append.mp hbl with hl | hr
            · exact List.mem_append_left _ (hextra bl hl)
            · rw [List.mem_singleton.mp hr]
              exact List.mem_append_right _ (List.mem_singleton_self _)
          · intro bl hbl hmem
            rcases List.mem_append.mp hmem with hl | hr
            · exact hdisj bl hbl hl
            · exact (hfresh a (List.mem_cons_self _ _) bl hbl).1 (List.mem_singleton.mp hr)
        · simp only [processFiles, if_neg h1, if_neg h2, if_neg h3] at h
          apply ih (extra ++ [(a.origPath, a.origBytes), (a.thumbPath, a.thumbBytes)])
            (pend ++ [a.meta]) (written ++ [a.origPath, a.thumbPath]) e b w
          · intro bl hbl
            rcases List.mem_append.mp hbl with hl | hr
            · exact List.mem_append_left _ (hextra bl hl)
            · rcases List.mem_cons.mp hr with rfl | hr'
              · exact List.mem_append_right _ (List.mem_cons_self _ _)
              · rw [List.mem_singleton.mp hr']
                exact List.mem_append_right _
                  (List.mem_cons_of_mem _ (List.mem_singleton_self _))
          · intro bl hbl hmem
            rcases List.mem_append.mp hmem with hl | hr
            · exact hdisj bl hbl hl
            · rcases List.mem_cons.mp hr with hr' | hr'
              · exact (hfresh a (List.mem_cons_self _ _) bl hbl).1 hr'
              · exact (hfresh a (List.mem_cons_self _ _) bl hbl).2
                  (List.mem_singleton.mp hr')
          · intro f hf bl hbl
            exact hfresh f (List.mem_cons_of_mem _ hf) bl hbl
          · rw [← List.append_assoc]
            exact h

/-- C1: a batch containing any failing file (decode/orientation failure or a
durable-write failure partway through) leaves the observable durable state —
blob store and Picture table — exactly as it was before `CreateBatch`,
provided the batch writes to fresh paths. -/
theorem c1_batch_rollback_atomicity (s : DurableState) (files : List InFile)
    (hfresh : ∀ f ∈ files, ∀ bl ∈ s.blobs, bl.1 ≠ f.origPath ∧ bl.1 ≠ f.thumbPath)
    (hfail : ∃ f ∈ files,
      f.decodes = false ∨ f.origWriteOk = false ∨ f.thumbWriteOk = false) :
    ∃ e, createBatch s files = (.error e, s) := by
  obtain ⟨e, b, w, heq⟩ := processFiles_error_exists files hfail s.blobs [] []
  have hroll : deletePaths b w = s.blobs := by
    apply processFiles_error_rollback s.blobs files [] [] [] e b w
    · intro bl hbl
      cases hbl
    · intro bl _
      simp
    · exact hfresh
    · simpa using heq
  refine ⟨e, ?_⟩
  simp only [createBatch, heq]
  rw [hroll]

/-- Concrete instantiation of `c1`: a two-file batch whose second file fails
to decode reverts the durable state (one pre-existing blob, empty table). -/
theorem c1_batch_rollback_atomicity_witness :
    (∀ f ∈ [(⟨true, true, true, "g1/o1", "g1/t1", 10, 2,
              ⟨1, 1, 1, 1, none, none, none, .active, 0⟩⟩ : InFile),
            ⟨false, true, true, "g1/o2", "g1/t2", 11, 3,
              ⟨2, 1, 1, 1, none, none, none, .active, 0⟩⟩],
      ∀ bl ∈ (⟨[("keep", 1)], []⟩ : DurableState).blobs,
        bl.1 ≠ f.origPath ∧ bl.1 ≠ f.thumbPath) ∧
    (∃ f ∈ [(⟨true, true, true, "g1/o1", "g1/t1", 10, 2,
              ⟨1, 1, 1, 1, none, none, none, .active, 0⟩⟩ : InFile),
            ⟨false, true, true, "g1/o2", "g1/t2", 11, 3,
              ⟨2, 1, 1, 1, none, none, none, .active, 0⟩⟩],
      f.decodes = false ∨ f.origWriteOk = false ∨ f.thumbWriteOk = false) ∧
    (∃ e, createBatch ⟨[("keep", 1)], []⟩
        [⟨true, true, true, "g1/o1", "g1/t1", 10, 2,
           ⟨1, 1, 1, 1, none, none, none, .active, 0⟩⟩,
         ⟨false, true, true, "g1/o2", "g1/t2", 11, 3,
           ⟨2, 1, 1, 1, none, none, none, .active, 0⟩⟩] =
      (.error e, ⟨[("keep", 1)], []⟩)) :=
  ⟨by decide, by decide,
   c1_batch_rollback_atomicity ⟨[("keep", 1)], []⟩
     [⟨true, true, true, "g1/o1", "g1/t1", 10, 2,
        ⟨1, 1, 1, 1, none, none, none, .active, 0⟩⟩,
      ⟨false, true, true, "g1/o2", "g1/t2", 11, 3,
        ⟨2, 1, 1, 1, none, none, none, .active, 0⟩⟩]
     (by decide) (by decide)⟩

end FamilyAlbum
